import Mathlib

/-!
# Verification of the strategic-case concept-resolution pipeline

Shallow embedding of the term-resolution core of the repository:

* the normalizer `_normalise` (Pipeline/extract.py),
* the resolver `_get_matches` / `map_concepts` / `map_concepts_old`
  (src/case_context/map.py, knowledge_base.py, config.py),
* the resolver `map_to_knowledge_base` with `fuzzy_match_term` and
  `semantic_match_term` (case_context/src/map.py, knowledge_base.py),
* the model loaders `load_nlp_model` (extract.py and
  src/case_context/extract.py).

External collaborators (the fuzzywuzzy/rapidfuzz scorers and the spaCy
similarity model) are modelled as score oracles: functions from a pair of
strings to a rational score, passed as parameters exactly where the source
calls the library.  Scores are rationals.
-/

set_option maxRecDepth 40000

namespace CasePipeline

/-! ## Normalizer (Pipeline/extract.py)

`_word_re = re.compile(r"\s+")`
`def _normalise(text): return _word_re.sub(" ", text.lower())` -/

/-- The characters matched by the regex class `\s` on ASCII text:
tab (9), newline (10), vertical tab (11), form feed (12),
carriage return (13) and space (32). -/
def isPySpace (c : Char) : Bool :=
  c.toNat = 32 || (9 ≤ c.toNat && c.toNat ≤ 13)

/-- Replace every maximal run of whitespace characters by a single space,
as `re.sub(r"\s+", " ", text)` does; `prevSpace` records whether the
current position is inside a run that has already emitted its space. -/
def collapseWs (prevSpace : Bool) : List Char → List Char
  | [] => []
  | c :: cs =>
    if isPySpace c then
      if prevSpace then collapseWs true cs
      else ' ' :: collapseWs true cs
    else c :: collapseWs false cs

/-- `text.lower()` on ASCII text, character by character. -/
def pyLower (s : String) : String :=
  ⟨s.data.map Char.toLower⟩

/-- `_normalise` from Pipeline/extract.py: lower-case, then collapse
whitespace runs to single spaces. -/
def pyNormalise (s : String) : String :=
  ⟨collapseWs false (s.data.map Char.toLower)⟩

/-- `s.strip()`: drop leading and trailing whitespace. -/
def pyStrip (s : String) : String :=
  ⟨((s.data.dropWhile fun c => isPySpace c).reverse.dropWhile fun c => isPySpace c).reverse⟩

/-! ## Score oracles for the external matching libraries -/

/-- The four fuzzywuzzy/rapidfuzz scorers used by the source
(`fuzz.ratio`, `fuzz.partial_ratio`, `fuzz.token_sort_ratio`,
`fuzz.token_set_ratio`), abstracted as score functions on a 0-100 scale. -/
structure FuzzOracle where
  ratioFn : String → String → ℚ
  partialFn : String → String → ℚ
  tokenSortFn : String → String → ℚ
  tokenSetFn : String → String → ℚ

/-- The spaCy `doc1.similarity(doc2)` cosine similarity, abstracted as a
score function (raw scale, conventionally in `[-1, 1]`). -/
abbrev SemOracle := String → String → ℚ

/-- `max([...])` over the four fuzzy scores of a string pair. -/
def max4 (fz : FuzzOracle) (a b : String) : ℚ :=
  max (max (fz.ratioFn a b) (fz.partialFn a b))
    (max (fz.tokenSortFn a b) (fz.tokenSetFn a b))

/-! ## Data model of src/case_context (knowledge_base.py, map.py, config.py) -/

/-- The `Concept` dataclass of src/case_context/knowledge_base.py.
Note: it has fields `name`, `definition`, `theory` and nothing else —
in particular no `source` field. -/
structure Concept where
  name : String
  definition : String
  theory : Option String := none
deriving DecidableEq

/-- `KNOWLEDGE_BASE` of src/case_context/knowledge_base.py, in source
order (Python dicts preserve insertion order). -/
def KNOWLEDGE_BASE_A : List (String × Concept) :=
  [ ("Network Effects",
      ⟨"Network Effects",
        "The phenomenon where a product or service becomes more valuable as more people use it.",
        some "PlatformStrategy"⟩)
  , ("First Mover Advantage",
      ⟨"First Mover Advantage",
        "The competitive edge gained by entering a market or developing a technology before rivals.",
        some "CompetitiveDynamics"⟩)
  , ("Asset Specificity",
      ⟨"Asset Specificity",
        "The degree to which investments are specific to a particular transaction and have little value outside that relationship.",
        some "TCE"⟩)
  , ("Five Forces",
      ⟨"Five Forces",
        "Porter's framework for analyzing industry competition through five key forces: supplier power, buyer power, competitive rivalry, threat of substitution, and threat of new entry.",
        some "CompetitiveDynamics"⟩)
  , ("Platform Strategy",
      ⟨"Platform Strategy",
        "A business model that creates value by facilitating exchanges between two or more interdependent groups, usually consumers and producers.",
        some "PlatformStrategy"⟩) ]

/-- `CONCEPTS = {concept.name: concept.definition for concept in KNOWLEDGE_BASE.values()}`. -/
def CONCEPTS_A : List (String × String) :=
  KNOWLEDGE_BASE_A.map fun p => (p.2.name, p.2.definition)

/-- `get_concept_by_name` of src/case_context/map.py: `KNOWLEDGE_BASE.get(name)`. -/
def get_concept_by_name (name : String) : Option Concept :=
  List.lookup name KNOWLEDGE_BASE_A

/-- `FUZZY_THRESHOLD` of src/case_context/config.py. -/
def FUZZY_THRESHOLD_A : ℚ := 60

/-- `SEMANTIC_THRESHOLD` of src/case_context/config.py (documented there
as the minimum semantic similarity score, on the same 0-100 scale that
`_semantic_match` returns). -/
def SEMANTIC_THRESHOLD_A : ℚ := 50

/-- The `ExtractedFact` dataclass of src/case_context/map.py. -/
structure ExtractedFact where
  text : String
  source : String
  type : String
deriving DecidableEq

/-- The `ConceptMatch` dataclass of src/case_context/map.py. -/
structure ConceptMatch where
  concept : String
  score : ℚ
  definition : String
  source : String
  matchedText : Option String := none
deriving DecidableEq

/-- The synonym table hard-coded inside `_semantic_match`. -/
def SYNONYMS : List (String × String) :=
  [ ("network externalities", "network effects")
  , ("network externality", "network effects")
  , ("externalities", "network effects") ]

/-- The synonym lookup at the start of `_semantic_match`: replace the
lowered text by its synonym-table image when present. -/
def synonymRewrite (textLower : String) : String :=
  match List.lookup textLower SYNONYMS with
  | some t => t
  | none => textLower

/-- `_semantic_match` of src/case_context/map.py: rewrite the lowered text
through the synonym table, then spaCy similarity of the lowered texts,
scaled to 0-100 (`doc1.similarity(doc2) * 100`). -/
def semanticMatch (sem : SemOracle) (text conceptText : String) : ℚ :=
  sem (synonymRewrite (pyLower text)) (pyLower conceptText) * 100

/-- The stable descending-by-score comparison used to model Python's
`sorted(..., key=lambda m: m.score, reverse=True)` and
`list.sort(key=..., reverse=True)` (both stable). -/
def matchLe (a b : ConceptMatch) : Bool :=
  decide (b.score ≤ a.score)

/-- Stable sort of matches by descending score. -/
def pySortMatches (l : List ConceptMatch) : List ConceptMatch :=
  l.mergeSort matchLe

/-- The combined score of one concept iteration of `_get_matches`:
`score = max(fuzzy_score, semantic_score)` where `fuzzy_score` is the max
of the four fuzzy ratios of the lowered strings. -/
def scoreOf (fz : FuzzOracle) (sem : SemOracle) (text conceptName : String) : ℚ :=
  max (max4 fz (pyLower text) (pyLower conceptName)) (semanticMatch sem text conceptName)

/-- One concept iteration of the loop of `_get_matches`: accept when the
combined score meets either threshold and the concept is found in the
knowledge base.  `source` is `getattr(concept, "source", "case")`;
`Concept` has no `source` field, so the default `"case"` is always used. -/
def getMatchStep (fz : FuzzOracle) (sem : SemOracle) (tF tS : ℚ) (text : String)
    (p : String × String) : Option ConceptMatch :=
  if tF ≤ scoreOf fz sem text p.1 ∨ tS ≤ scoreOf fz sem text p.1 then
    match get_concept_by_name p.1 with
    | some c => some ⟨p.1, scoreOf fz sem text p.1, c.definition, "case", some text⟩
    | none => none
  else none

/-- `_get_matches` of src/case_context/map.py, with the thresholds from
config.py passed explicitly: one candidate match per concept, sorted by
descending score. -/
def getMatches (fz : FuzzOracle) (sem : SemOracle) (tF tS : ℚ) (text : String)
    (concepts : List (String × String)) : List ConceptMatch :=
  pySortMatches (concepts.filterMap (getMatchStep fz sem tF tS text))

/-- First-occurrence deduplication by the `(concept, source)` key, as in
the `seen` set loop at the end of `map_concepts`. -/
def dedupMatches : List ConceptMatch → List (String × String) → List ConceptMatch
  | [], _ => []
  | m :: ms, seen =>
    if (m.concept, m.source) ∈ seen then dedupMatches ms seen
    else m :: dedupMatches ms ((m.concept, m.source) :: seen)

/-- The concatenation of the per-fact match lists built by the
`for fact in extracted_facts` loop of `map_concepts`. -/
def allMatches (fz : FuzzOracle) (sem : SemOracle) (facts : List ExtractedFact) :
    List ConceptMatch :=
  facts.flatMap fun f =>
    getMatches fz sem FUZZY_THRESHOLD_A SEMANTIC_THRESHOLD_A f.text CONCEPTS_A

/-- `map_concepts` of src/case_context/map.py on a list of already
extracted facts (the dict branch of the source first converts the dict to
such a list using the NLP model): gather matches per fact, sort the whole
list by descending score (stable), deduplicate by `(concept, source)`
keeping the first occurrence. -/
def mapConcepts (fz : FuzzOracle) (sem : SemOracle) (facts : List ExtractedFact) :
    List ConceptMatch :=
  dedupMatches (pySortMatches (allMatches fz sem facts)) []

/-- `map_concepts_old` of src/case_context/map.py, modelled faithfully as
fallible (after the initial `load_nlp_model()` call, assumed to succeed
as in `mapConcepts`).  It iterates `for concept in CONCEPTS:` where
`CONCEPTS` is a `Dict[str, str]`, so each `concept` is a string key and
the very first attribute access `concept.name` raises `AttributeError`:
the noun-chunk loop raises as soon as there is a chunk and a concept,
otherwise the identical business-verb loop raises as soon as there is a
verb and a concept, and only when no concept iteration ever starts does
the function return `sorted([]) = []`.  (Had the attribute access
succeeded, every `ConceptMatch(...)` call in its body would still omit
the required `source` argument, a `TypeError`.)  In particular the
`semantic_score >= SEMANTIC_THRESHOLD` comparison in its text — a raw
0-1 cosine value against the 0-100-scale threshold — is never
executed. -/
def mapConceptsOld (nounChunks businessVerbs : List String)
    (concepts : List (String × String)) : Except String (List ConceptMatch) :=
  match nounChunks, concepts with
  | _ :: _, _ :: _ => .error "AttributeError"
  | _, _ =>
    match businessVerbs, concepts with
    | _ :: _, _ :: _ => .error "AttributeError"
    | _, _ => .ok []

/-! ## Data model of case_context/src (knowledge_base.py, map.py) -/

/-- The `Concept` TypedDict of case_context/src/knowledge_base.py. -/
structure KBEntry where
  category : String
  theory : Option String
  description : String
deriving DecidableEq

/-- `KNOWLEDGE_BASE` of case_context/src/knowledge_base.py, in source
order. -/
def KNOWLEDGE_BASE_B : List (String × KBEntry) :=
  [ ("transaction cost",
      ⟨"Strategic_Theory", some "TCE",
        "Transaction Cost Economics - analyzing costs of market transactions"⟩)
  , ("resource based view",
      ⟨"Strategic_Theory", some "RBV",
        "Resource-Based View - competitive advantage from unique resources"⟩)
  , ("platform",
      ⟨"Business_Concept", none, "Digital platform business model"⟩)
  , ("network effects",
      ⟨"Business_Concept", none, "Value increases with more users"⟩)
  , ("barriers to entry",
      ⟨"Business_Concept", none, "Obstacles preventing new competitors"⟩)
  , ("competitive advantage",
      ⟨"Business_Concept", none, "Superior position in market"⟩)
  , ("value chain",
      ⟨"Business_Concept", none, "Sequence of activities creating value"⟩)
  , ("market share",
      ⟨"Industry_Context", none, "Percentage of total market sales"⟩)
  , ("industry structure",
      ⟨"Industry_Context", none, "Organization of market participants"⟩)
  , ("regulatory environment",
      ⟨"Industry_Context", none, "Government rules affecting industry"⟩) ]

/-- `kb_choices = list(KNOWLEDGE_BASE.keys())`. -/
def kbKeysB : List String :=
  KNOWLEDGE_BASE_B.map fun p => p.1

/-- `KNOWLEDGE_BASE[k]` for a key coming from `kb_choices`: the lookup
always succeeds there, so the default value of this total version is
unreachable (in Python a missing key would raise `KeyError`). -/
def kbGetB (k : String) : KBEntry :=
  (List.lookup k KNOWLEDGE_BASE_B).getD ⟨"", none, ""⟩

/-- The `MappedConcept` TypedDict of case_context/src/map.py. -/
structure MappedConcept where
  concept : String
  category : String
  theory : Option String
  confidence : ℚ
deriving DecidableEq

/-- `FUZZY_THRESHOLD` of case_context/src/map.py (0-100 scale). -/
def FUZZY_THRESHOLD_B : ℚ := 70

/-- `SEMANTIC_THRESHOLD` of case_context/src/map.py (0-1 scale). -/
def SEMANTIC_THRESHOLD_B : ℚ := 65 / 100

/-- The strictly-better fold shared by `process.extractOne` (rapidfuzz)
and Python's `max(..., key=...)`: both return the first choice attaining
the maximal score. -/
def bestStep (scorer : String → String → ℚ) (query : String)
    (best : String × ℚ) (x : String) : String × ℚ :=
  let s := scorer query x
  if best.2 < s then (x, s) else best

/-- Scan the remaining choices keeping the strictly better score. -/
def bestChoice (scorer : String → String → ℚ) (query first : String)
    (rest : List String) : String × ℚ :=
  rest.foldl (bestStep scorer query) (first, scorer query first)

/-- `fuzzy_match_term` of case_context/src/map.py: clean the term
(`term.strip().lower()`), then `process.extractOne` over the choices with
the single scorer `fuzz.token_sort_ratio` (passed here as `scorer`).
On an empty choice list `extractOne` returns `None` and the caller would
crash unpacking it; the knowledge base is non-empty, so the `[]` case is
modelled by a dummy pair. -/
def fuzzyMatchTerm (scorer : String → String → ℚ) (term : String)
    (choices : List String) : String × ℚ :=
  let termClean := pyLower (pyStrip term)
  match choices with
  | [] => ("", 0)
  | c :: cs => bestChoice scorer termClean c cs

/-- `semantic_match_term` of case_context/src/map.py: strip the term,
then take the spaCy-similarity-maximal choice (`max` with a key returns
the first maximum; `max` of an empty sequence raises, and the knowledge
base is non-empty, so the `[]` case is modelled by a dummy pair). -/
def semanticMatchTerm (sem : SemOracle) (term : String)
    (choices : List String) : String × ℚ :=
  let termClean := pyStrip term
  match choices with
  | [] => ("", 0)
  | c :: cs => bestChoice sem termClean c cs

/-- The per-term body of the `for term in extracted_terms` loop of
`map_to_knowledge_base`: exact key lookup on the lowered term
(confidence 1.0), else fuzzy tier (confidence `score / 100`), else
semantic tier (confidence = raw similarity), else the unconditional
fallback entry `{concept: term, category: "Business_Concept",
theory: None, confidence: 0.0}`. -/
def mapTerm (fzScorer : String → String → ℚ) (semScorer : SemOracle)
    (tF tS : ℚ) (term : String) : MappedConcept :=
  let termLower := pyLower term
  match List.lookup termLower KNOWLEDGE_BASE_B with
  | some c => ⟨term, c.category, c.theory, 1⟩
  | none =>
    let fm := fuzzyMatchTerm fzScorer termLower kbKeysB
    if tF ≤ fm.2 then
      let c := kbGetB fm.1
      ⟨term, c.category, c.theory, fm.2 / 100⟩
    else
      let sm := semanticMatchTerm semScorer termLower kbKeysB
      if tS ≤ sm.2 then
        let c := kbGetB sm.1
        ⟨term, c.category, c.theory, sm.2⟩
      else
        ⟨term, "Business_Concept", none, 0⟩

/-- `map_to_knowledge_base` of case_context/src/map.py: every loop
iteration appends exactly one `MappedConcept`, so the function is the map
of `mapTerm` over the input terms. -/
def mapToKnowledgeBase (fzScorer : String → String → ℚ) (semScorer : SemOracle)
    (tF tS : ℚ) (terms : List String) : List MappedConcept :=
  terms.map (mapTerm fzScorer semScorer tF tS)

/-! ## Model loading (extract.py, src/case_context/extract.py)

Model availability is abstracted as booleans: whether `spacy.load`
succeeds, and whether the `download`-then-reload recovery of the
src/case_context variant succeeds.  Errors are identified by the name of
the Python exception class that propagates. -/

/-- `load_nlp_model` of extract.py: return the cached model if present;
otherwise try to load, and on `OSError` log and re-raise it. -/
def loadNlpModelTop (cached : Option Unit) (loadSucceeds : Bool) :
    Except String Unit :=
  match cached with
  | some m => .ok m
  | none => if loadSucceeds then .ok () else .error "OSError"

/-- `load_nlp_model` of src/case_context/extract.py: return the cached
model if present; otherwise try to load, and on `OSError` download the
model and load again (only a failure of that recovery propagates an
error). -/
def loadNlpModelCC (cached : Option Unit) (loadSucceeds downloadSucceeds : Bool) :
    Except String Unit :=
  match cached with
  | some m => .ok m
  | none =>
    if loadSucceeds then .ok ()
    else if downloadSucceeds then .ok ()
    else .error "OSError"

/-- `map_to_knowledge_base` with the lazy `load_nlp_model` call of its
semantic tier made explicit: the spaCy model is loaded only when some
term reaches the semantic tier, and a load failure (`modelAvailable =
false`) propagates out of the whole call as the `OSError` raised by
`load_nlp_model` in extract.py. -/
def mapTermsE (fzScorer : String → String → ℚ) (semScorer : SemOracle)
    (tF tS : ℚ) (modelAvailable : Bool) : List String → Except String (List MappedConcept)
  | [] => .ok []
  | t :: ts =>
    let termLower := pyLower t
    match List.lookup termLower KNOWLEDGE_BASE_B with
    | some c =>
      (mapTermsE fzScorer semScorer tF tS modelAvailable ts).map
        (⟨t, c.category, c.theory, 1⟩ :: ·)
    | none =>
      let fm := fuzzyMatchTerm fzScorer termLower kbKeysB
      if tF ≤ fm.2 then
        let c := kbGetB fm.1
        (mapTermsE fzScorer semScorer tF tS modelAvailable ts).map
          (⟨t, c.category, c.theory, fm.2 / 100⟩ :: ·)
      else if modelAvailable then
        let sm := semanticMatchTerm semScorer termLower kbKeysB
        if tS ≤ sm.2 then
          let c := kbGetB sm.1
          (mapTermsE fzScorer semScorer tF tS modelAvailable ts).map
            (⟨t, c.category, c.theory, sm.2⟩ :: ·)
        else
          (mapTermsE fzScorer semScorer tF tS modelAvailable ts).map
            (⟨t, "Business_Concept", none, 0⟩ :: ·)
      else .error "OSError"

/-! ## Concrete score oracles used in the concrete evaluations

The nonzero values below are the real library values for the pairs they
are evaluated at; pairs the evaluations never reach are given score 0
(the real sub-threshold values there do not affect any outcome). -/

/-- A scorer that returns 0 everywhere (no string pair is similar). -/
def zeroScorer : String → String → ℚ := fun _ _ => 0

/-- A scorer giving the exact-equality behaviour of the fuzzy ratios:
100 for identical strings. -/
def eqScorer : String → String → ℚ := fun a b => if a = b then 100 else 0

/-- All four fuzzy ratios instantiated with the exact-equality scorer. -/
def eqFuzzOracle : FuzzOracle :=
  ⟨eqScorer, eqScorer, eqScorer, eqScorer⟩

/-- A semantic oracle with similarity 0 everywhere. -/
def semZero : SemOracle := fun _ _ => 0

/-- A semantic oracle with cosine similarity 0.6 between the phrase
"network effects" and the concept "platform strategy" (two related
platform-economics terms). -/
def semPS : SemOracle := fun a b =>
  if a = "network effects" ∧ b = "platform strategy" then 3 / 5 else 0

/-- A semantic oracle with cosine similarity 0.9 everywhere. -/
def semNine : SemOracle := fun _ _ => 9 / 10

/-- A fuzzy scorer giving 96 against the knowledge-base key
"transaction cost" (the rounded-down rapidfuzz `token_sort_ratio` of
"transaction costs" against it is 96.97) and 0 elsewhere. -/
def scorerTC : String → String → ℚ :=
  fun _ b => if b = "transaction cost" then 96 else 0

/-- The four fuzzywuzzy/rapidfuzz ratios of the pair
("transaction", "transaction costs"): simple ratio 2*11/28*100 = 550/7,
partial ratio 100 ("transaction" is a substring), token-sort ratio 550/7,
token-set ratio 100 (the token intersection equals the shorter side). -/
def tcFuzzOracle : FuzzOracle :=
  ⟨fun a b => if a = "transaction" ∧ b = "transaction costs" then 550 / 7 else 0,
   fun a b => if a = "transaction" ∧ b = "transaction costs" then 100 else 0,
   fun a b => if a = "transaction" ∧ b = "transaction costs" then 550 / 7 else 0,
   fun a b => if a = "transaction" ∧ b = "transaction costs" then 100 else 0⟩

/-! ## Lemmas about the normalizer -/

lemma collapseWs_true_space {c : Char} (cs : List Char) (h : isPySpace c = true) :
    collapseWs true (c :: cs) = collapseWs true cs := by
  simp only [collapseWs]
  rw [if_pos h]
  simp

lemma collapseWs_false_space {c : Char} (cs : List Char) (h : isPySpace c = true) :
    collapseWs false (c :: cs) = ' ' :: collapseWs true cs := by
  simp only [collapseWs]
  rw [if_pos h]
  simp

lemma collapseWs_nonspace {c : Char} (b : Bool) (cs : List Char) (h : isPySpace c = false) :
    collapseWs b (c :: cs) = c :: collapseWs false cs := by
  simp only [collapseWs]
  rw [if_neg (by simp [h])]

lemma char_toNat_ofNat (n : Nat) (h : n.isValidChar) : (Char.ofNat n).toNat = n := by
  simp [Char.ofNat, h, Char.ofNatAux, Char.toNat, UInt32.toNat]

lemma toLower_idem (c : Char) : c.toLower.toLower = c.toLower := by
  unfold Char.toLower
  by_cases h : c.toNat ≥ 65 ∧ c.toNat ≤ 90
  · rw [if_pos h]
    have hv : (c.toNat + 32).isValidChar := Or.inl (by omega)
    have hn : (Char.ofNat (c.toNat + 32)).toNat = c.toNat + 32 := char_toNat_ofNat _ hv
    rw [if_neg (by omega)]
  · rw [if_neg h, if_neg h]

lemma isPySpace_toLower (c : Char) : isPySpace c.toLower = isPySpace c := by
  unfold Char.toLower
  by_cases h : c.toNat ≥ 65 ∧ c.toNat ≤ 90
  · rw [if_pos h]
    have hv : (c.toNat + 32).isValidChar := Or.inl (by omega)
    have hn : (Char.ofNat (c.toNat + 32)).toNat = c.toNat + 32 := char_toNat_ofNat _ hv
    unfold isPySpace
    rw [hn]
    have h1 : (c.toNat + 32 = 32 || (9 ≤ c.toNat + 32 && c.toNat + 32 ≤ 13)) = false := by
      simp only [Bool.or_eq_false_iff, Bool.and_eq_false_iff, decide_eq_false_iff_not]
      omega
    have h2 : (c.toNat = 32 || (9 ≤ c.toNat && c.toNat ≤ 13)) = false := by
      simp only [Bool.or_eq_false_iff, Bool.and_eq_false_iff, decide_eq_false_iff_not]
      omega
    rw [h1, h2]
  · rw [if_neg h]

lemma toLower_space : Char.toLower ' ' = ' ' := by decide

/-- Re-collapsing an already collapsed character list leaves it unchanged. -/
lemma collapseWs_idem (l : List Char) :
    (∀ b, collapseWs b (collapseWs true l) = collapseWs true l) ∧
      collapseWs false (collapseWs false l) = collapseWs false l := by
  induction l with
  | nil => simp [collapseWs]
  | cons c cs ih =>
    by_cases h : isPySpace c = true
    · refine ⟨fun b => ?_, ?_⟩
      · rw [collapseWs_true_space cs h]
        exact ih.1 b
      · rw [collapseWs_false_space cs h]
        rw [collapseWs_false_space _ (by decide)]
        rw [ih.1 true]
    · replace h : isPySpace c = false := by simpa using h
      refine ⟨fun b => ?_, ?_⟩
      · rw [collapseWs_nonspace true cs h, collapseWs_nonspace b _ h, ih.2]
      · rw [collapseWs_nonspace false cs h, collapseWs_nonspace false _ h, ih.2]

lemma map_toLower_collapseWs (b : Bool) (l : List Char) :
    (collapseWs b l).map Char.toLower = collapseWs b (l.map Char.toLower) := by
  induction l generalizing b with
  | nil => simp [collapseWs]
  | cons c cs ih =>
    by_cases h : isPySpace c = true
    · have h2 : isPySpace c.toLower = true := by rw [isPySpace_toLower]; exact h
      cases b with
      | true =>
        rw [collapseWs_true_space cs h, ih true]
        simp only [List.map_cons]
        rw [collapseWs_true_space _ h2]
      | false =>
        rw [collapseWs_false_space cs h]
        simp only [List.map_cons]
        rw [toLower_space, ih true, collapseWs_false_space _ h2]
    · replace h : isPySpace c = false := by simpa using h
      have h2 : isPySpace c.toLower = false := by rw [isPySpace_toLower]; exact h
      rw [collapseWs_nonspace b cs h]
      simp only [List.map_cons]
      rw [collapseWs_nonspace b _ h2, ih false]

lemma map_toLower_idem (l : List Char) :
    (l.map Char.toLower).map Char.toLower = l.map Char.toLower := by
  rw [List.map_map]
  apply List.map_congr_left
  intro c _
  exact toLower_idem c

/-! ## Lemmas about sorting and deduplication -/

lemma matchLe_trans : ∀ (a b c : ConceptMatch), matchLe a b → matchLe b c → matchLe a c := by
  intro a b c hab hbc
  simp only [matchLe, decide_eq_true_eq] at *
  exact le_trans hbc hab

lemma matchLe_total : ∀ (a b : ConceptMatch), matchLe a b || matchLe b a := by
  intro a b
  simp only [matchLe, Bool.or_eq_true, decide_eq_true_eq]
  exact le_total b.score a.score

/-- The stable descending sort really sorts by non-increasing score. -/
lemma pySortMatches_sorted (l : List ConceptMatch) :
    (pySortMatches l).Pairwise (fun a b => b.score ≤ a.score) := by
  have h := List.sorted_mergeSort matchLe_trans matchLe_total l
  exact h.imp (by intro a b hab; simpa [matchLe] using hab)

/-- Stability of the descending sort: the elements of any fixed score
keep their original relative order (their sublist is unchanged). -/
lemma pySortMatches_filter_score (l : List ConceptMatch) (c : ℚ) :
    (pySortMatches l).filter (fun m => decide (m.score = c))
      = l.filter (fun m => decide (m.score = c)) := by
  set p : ConceptMatch → Bool := fun m => decide (m.score = c) with hp
  have hpair : (l.filter p).Pairwise (fun a b => matchLe a b) := by
    apply List.pairwise_of_forall_mem_list
    intro a ha b hb
    have ha2 : a.score = c := by simpa [hp] using List.of_mem_filter ha
    have hb2 : b.score = c := by simpa [hp] using List.of_mem_filter hb
    simp [matchLe, ha2, hb2]
  have hsub : List.Sublist (l.filter p) (List.mergeSort l matchLe) :=
    List.sublist_mergeSort matchLe_trans matchLe_total hpair (List.filter_sublist l)
  have hsub2 : List.Sublist (l.filter p) ((List.mergeSort l matchLe).filter p) := by
    have := hsub.filter p
    rwa [List.filter_filter, show (fun a => p a && p a) = p from funext fun a => Bool.and_self _]
      at this
  have hlen : (l.filter p).length = ((List.mergeSort l matchLe).filter p).length :=
    (((List.mergeSort_perm l matchLe).filter p).length_eq).symm
  exact (hsub2.eq_of_length hlen).symm

/-- Deduplication returns a sublist of its input. -/
lemma dedupMatches_sublist : ∀ (l : List ConceptMatch) (seen : List (String × String)),
    List.Sublist (dedupMatches l seen) l
  | [], _ => List.Sublist.refl []
  | m :: ms, seen => by
    by_cases h : (m.concept, m.source) ∈ seen
    · simp only [dedupMatches, if_pos h]
      exact (dedupMatches_sublist ms seen).cons m
    · simp only [dedupMatches, if_neg h]
      exact (dedupMatches_sublist ms _).cons₂ m

/-- Every key surviving deduplication is absent from the `seen` set. -/
lemma dedupMatches_key_not_seen : ∀ (l : List ConceptMatch) (seen : List (String × String))
    (m : ConceptMatch), m ∈ dedupMatches l seen → (m.concept, m.source) ∉ seen
  | [], _, m, h => by simp [dedupMatches] at h
  | x :: xs, seen, m, h => by
    by_cases hx : (x.concept, x.source) ∈ seen
    · rw [dedupMatches, if_pos hx] at h
      exact dedupMatches_key_not_seen xs seen m h
    · rw [dedupMatches, if_neg hx] at h
      rcases List.mem_cons.mp h with rfl | h2
      · exact hx
      · have := dedupMatches_key_not_seen xs _ m h2
        exact fun hc => this (List.mem_cons_of_mem _ hc)

/-- Deduplication leaves no two entries with the same (concept, source)
key. -/
lemma dedupMatches_pairwise_key : ∀ (l : List ConceptMatch) (seen : List (String × String)),
    (dedupMatches l seen).Pairwise
      (fun a b => (a.concept, a.source) ≠ (b.concept, b.source))
  | [], _ => by simp [dedupMatches]
  | x :: xs, seen => by
    by_cases hx : (x.concept, x.source) ∈ seen
    · rw [dedupMatches, if_pos hx]
      exact dedupMatches_pairwise_key xs seen
    · rw [dedupMatches, if_neg hx]
      refine List.Pairwise.cons ?_ (dedupMatches_pairwise_key xs _)
      intro m hm
      have := dedupMatches_key_not_seen xs _ m hm
      intro hc
      exact this (by rw [← hc]; exact List.mem_cons_self _ _)

/-- On a list sorted by non-increasing score, deduplication keeps, for
every element, a representative with the same key and a score at least
as high (the first occurrence of the key, which is maximal): the
first-occurrence-wins behaviour. -/
lemma dedupMatches_rep : ∀ (l : List ConceptMatch) (seen : List (String × String)),
    l.Pairwise (fun a b => b.score ≤ a.score) →
    ∀ m ∈ l, (m.concept, m.source) ∉ seen →
    ∃ m2 ∈ dedupMatches l seen,
      m2.concept = m.concept ∧ m2.source = m.source ∧ m.score ≤ m2.score
  | [], _, _, m, hm, _ => by simp at hm
  | x :: xs, seen, hsort, m, hm, hns => by
    by_cases hx : (x.concept, x.source) ∈ seen
    · rw [dedupMatches, if_pos hx]
      rcases List.mem_cons.mp hm with rfl | h2
      · exact absurd hx hns
      · exact dedupMatches_rep xs seen hsort.of_cons m h2 hns
    · rw [dedupMatches, if_neg hx]
      rcases List.mem_cons.mp hm with rfl | h2
      · exact ⟨m, List.mem_cons_self _ _, rfl, rfl, le_refl _⟩
      · by_cases hk : (m.concept, m.source) = (x.concept, x.source)
        · refine ⟨x, List.mem_cons_self _ _, ?_, ?_, ?_⟩
          · exact (congrArg Prod.fst hk).symm
          · exact (congrArg Prod.snd hk).symm
          · exact (List.pairwise_cons.mp hsort).1 m h2
        · obtain ⟨m2, hm2, h3⟩ :=
            dedupMatches_rep xs _ hsort.of_cons m h2
              (by
                intro hc
                rcases List.mem_cons.mp hc with hc2 | hc2
                · exact hk hc2
                · exact hns hc2)
          exact ⟨m2, List.mem_cons_of_mem _ hm2, h3⟩

/-! ## Lemmas about the resolver of src/case_context -/

lemma getMatchStep_inv {fz : FuzzOracle} {sem : SemOracle} {tF tS : ℚ} {text : String}
    {p : String × String} {m : ConceptMatch}
    (h : getMatchStep fz sem tF tS text p = some m) :
    m.concept = p.1 ∧ m.score = scoreOf fz sem text p.1 ∧ m.source = "case" ∧
      (tF ≤ scoreOf fz sem text p.1 ∨ tS ≤ scoreOf fz sem text p.1) := by
  unfold getMatchStep at h
  by_cases hc : tF ≤ scoreOf fz sem text p.1 ∨ tS ≤ scoreOf fz sem text p.1
  · rw [if_pos hc] at h
    cases hg : get_concept_by_name p.1 with
    | none => rw [hg] at h; exact absurd h (by simp)
    | some c =>
      rw [hg] at h
      simp only [Option.some.injEq] at h
      subst h
      exact ⟨rfl, rfl, rfl, hc⟩
  · rw [if_neg hc] at h
    exact absurd h (by simp)

lemma mem_getMatches {fz : FuzzOracle} {sem : SemOracle} {tF tS : ℚ} {text : String}
    {concepts : List (String × String)} {m : ConceptMatch} :
    m ∈ getMatches fz sem tF tS text concepts ↔
      m ∈ concepts.filterMap (getMatchStep fz sem tF tS text) := by
  unfold getMatches pySortMatches
  exact List.mem_mergeSort

/-- Raising either threshold of `_get_matches` can only remove matches. -/
lemma getMatches_subset_of_thresholds {fz : FuzzOracle} {sem : SemOracle} {text : String}
    {concepts : List (String × String)} {tF tF2 tS tS2 : ℚ}
    (hF : tF ≤ tF2) (hS : tS ≤ tS2) :
    ∀ m ∈ getMatches fz sem tF2 tS2 text concepts,
      m ∈ getMatches fz sem tF tS text concepts := by
  intro m hm
  rw [mem_getMatches] at hm ⊢
  obtain ⟨p, hp, hstep⟩ := List.mem_filterMap.mp hm
  refine List.mem_filterMap.mpr ⟨p, hp, ?_⟩
  unfold getMatchStep at hstep ⊢
  by_cases hc : tF2 ≤ scoreOf fz sem text p.1 ∨ tS2 ≤ scoreOf fz sem text p.1
  · rw [if_pos hc] at hstep
    rw [if_pos (hc.imp (le_trans hF) (le_trans hS))]
    exact hstep
  · rw [if_neg hc] at hstep
    exact absurd hstep (by simp)

/-- `_get_matches` yields nothing when the combined score of every
concept is below both thresholds. -/
lemma getMatches_eq_nil {fz : FuzzOracle} {sem : SemOracle} {tF tS : ℚ} {text : String}
    {concepts : List (String × String)}
    (h : ∀ p ∈ concepts, scoreOf fz sem text p.1 < tF ∧ scoreOf fz sem text p.1 < tS) :
    getMatches fz sem tF tS text concepts = [] := by
  unfold getMatches pySortMatches
  rw [List.filterMap_eq_nil_iff.mpr ?_]
  · exact List.mergeSort_nil
  · intro p hp
    unfold getMatchStep
    rw [if_neg]
    rintro (hc | hc)
    · exact absurd hc (not_le.mpr (h p hp).1)
    · exact absurd hc (not_le.mpr (h p hp).2)

/-- Every match produced by `map_concepts` carries the source tag
`"case"`, whatever source the extracted fact carried. -/
lemma mapConcepts_source {fz : FuzzOracle} {sem : SemOracle} {facts : List ExtractedFact}
    {m : ConceptMatch} (h : m ∈ mapConcepts fz sem facts) : m.source = "case" := by
  unfold mapConcepts at h
  have h2 := (dedupMatches_sublist _ _).mem h
  rw [pySortMatches, List.mem_mergeSort] at h2
  unfold allMatches at h2
  obtain ⟨f, _, hm⟩ := List.mem_flatMap.mp h2
  rw [mem_getMatches] at hm
  obtain ⟨p, _, hstep⟩ := List.mem_filterMap.mp hm
  exact (getMatchStep_inv hstep).2.2.1

/-- Two entries with different keys survive deduplication unchanged. -/
lemma dedupMatches_pair {a b : ConceptMatch}
    (h : (a.concept, a.source) ≠ (b.concept, b.source)) :
    dedupMatches [a, b] [] = [a, b] := by
  rw [dedupMatches, if_neg (List.not_mem_nil _)]
  rw [dedupMatches, if_neg ?_, dedupMatches]
  intro hc
  rcases List.mem_cons.mp hc with hc2 | hc2
  · exact h hc2.symm
  · exact List.not_mem_nil _ hc2

/-! ## Lemmas about the resolver of case_context/src -/

lemma mapTerm_exact {f s : String → String → ℚ} {tF tS : ℚ} {term : String} {c : KBEntry}
    (h : List.lookup (pyLower term) KNOWLEDGE_BASE_B = some c) :
    mapTerm f s tF tS term = ⟨term, c.category, c.theory, 1⟩ := by
  simp only [mapTerm, h]

lemma mapTerm_fallback {f s : String → String → ℚ} {tF tS : ℚ} {term : String}
    (h1 : List.lookup (pyLower term) KNOWLEDGE_BASE_B = none)
    (h2 : (fuzzyMatchTerm f (pyLower term) kbKeysB).2 < tF)
    (h3 : (semanticMatchTerm s (pyLower term) kbKeysB).2 < tS) :
    mapTerm f s tF tS term = ⟨term, "Business_Concept", none, 0⟩ := by
  simp only [mapTerm, h1]
  rw [if_neg (not_le.mpr h2), if_neg (not_le.mpr h3)]

lemma mapTerm_concept (f s : String → String → ℚ) (tF tS : ℚ) (term : String) :
    (mapTerm f s tF tS term).concept = term := by
  rcases hl : List.lookup (pyLower term) KNOWLEDGE_BASE_B with _ | c
  · simp only [mapTerm, hl]
    split_ifs <;> rfl
  · simp only [mapTerm, hl]

lemma bestChoice_aux (scorer : String → String → ℚ) (query : String) :
    ∀ (rest : List String) (acc : String × ℚ), acc.2 = scorer query acc.1 →
      ((rest.foldl (bestStep scorer query) acc).1 = acc.1 ∨
        (rest.foldl (bestStep scorer query) acc).1 ∈ rest) ∧
      (rest.foldl (bestStep scorer query) acc).2 =
        scorer query (rest.foldl (bestStep scorer query) acc).1
  | [], acc, hacc => ⟨Or.inl rfl, hacc⟩
  | x :: xs, acc, hacc => by
    rw [List.foldl_cons]
    have hstep : (bestStep scorer query acc x).2 = scorer query (bestStep scorer query acc x).1 ∧
        ((bestStep scorer query acc x).1 = acc.1 ∨ (bestStep scorer query acc x).1 = x) := by
      unfold bestStep
      by_cases hlt : acc.2 < scorer query x
      · rw [if_pos hlt]
        exact ⟨rfl, Or.inr rfl⟩
      · rw [if_neg hlt]
        exact ⟨hacc, Or.inl rfl⟩
    obtain ⟨hmem, hsc⟩ := bestChoice_aux scorer query xs (bestStep scorer query acc x) hstep.1
    refine ⟨?_, hsc⟩
    rcases hmem with heq | hmem2
    · rw [heq]
      rcases hstep.2 with h2 | h2
      · exact Or.inl h2
      · exact Or.inr (by rw [h2]; exact List.mem_cons_self x xs)
    · exact Or.inr (List.mem_cons_of_mem x hmem2)

/-- The pair returned by `fuzzy_match_term` consists of one of the
choices together with the value of its single scorer on the cleaned term
and that choice (so the thresholded score is that scorer alone). -/
lemma fuzzyMatchTerm_spec (scorer : String → String → ℚ) (term first : String)
    (rest : List String) :
    (fuzzyMatchTerm scorer term (first :: rest)).1 ∈ first :: rest ∧
    (fuzzyMatchTerm scorer term (first :: rest)).2 =
      scorer (pyLower (pyStrip term)) (fuzzyMatchTerm scorer term (first :: rest)).1 := by
  unfold fuzzyMatchTerm bestChoice
  obtain ⟨hmem, hsc⟩ := bestChoice_aux scorer (pyLower (pyStrip term)) rest
    (first, scorer (pyLower (pyStrip term)) first) rfl
  refine ⟨?_, hsc⟩
  rcases hmem with heq | hmem2
  · exact heq ▸ List.mem_cons_self _ _
  · exact List.mem_cons_of_mem _ hmem2

/-- The pair returned by `semantic_match_term` consists of one of the
choices together with the similarity of the stripped term and that
choice. -/
lemma semanticMatchTerm_spec (sem : SemOracle) (term first : String)
    (rest : List String) :
    (semanticMatchTerm sem term (first :: rest)).1 ∈ first :: rest ∧
    (semanticMatchTerm sem term (first :: rest)).2 =
      sem (pyStrip term) (semanticMatchTerm sem term (first :: rest)).1 := by
  unfold semanticMatchTerm bestChoice
  obtain ⟨hmem, hsc⟩ := bestChoice_aux sem (pyStrip term) rest
    (first, sem (pyStrip term) first) rfl
  refine ⟨?_, hsc⟩
  rcases hmem with heq | hmem2
  · exact heq ▸ List.mem_cons_self _ _
  · exact List.mem_cons_of_mem _ hmem2

/-- When the two scorers stay in their library ranges (fuzzy ratios in
`[0, 100]`, cosine similarity in `[0, 1]`), every confidence emitted by
`map_to_knowledge_base` lies on the single 0-1 output scale: 1.0 for
exact, the fuzzy score divided by 100, the raw similarity, or 0.0. -/
lemma mapTerm_confidence_bounds {f s : String → String → ℚ} {uF uS : ℚ} (term : String)
    (hf : ∀ a b, 0 ≤ f a b ∧ f a b ≤ 100) (hs : ∀ a b, 0 ≤ s a b ∧ s a b ≤ 1) :
    0 ≤ (mapTerm f s uF uS term).confidence ∧ (mapTerm f s uF uS term).confidence ≤ 1 := by
  rcases hl : List.lookup (pyLower term) KNOWLEDGE_BASE_B with _ | c
  · simp only [mapTerm, hl]
    by_cases hfz : uF ≤ (fuzzyMatchTerm f (pyLower term) kbKeysB).2
    · rw [if_pos hfz]
      have hb : 0 ≤ (fuzzyMatchTerm f (pyLower term) kbKeysB).2 ∧
          (fuzzyMatchTerm f (pyLower term) kbKeysB).2 ≤ 100 := by
        rcases hk : kbKeysB with _ | ⟨a, l⟩
        · exact absurd hk (by with_unfolding_all decide)
        · obtain ⟨_, hsc⟩ := fuzzyMatchTerm_spec f (pyLower term) a l
          rw [hsc]
          exact hf _ _
      constructor
      · exact div_nonneg hb.1 (by norm_num)
      · exact (div_le_one (by norm_num : (0 : ℚ) < 100)).mpr hb.2
    · rw [if_neg hfz]
      by_cases hsm : uS ≤ (semanticMatchTerm s (pyLower term) kbKeysB).2
      · rw [if_pos hsm]
        rcases hk : kbKeysB with _ | ⟨a, l⟩
        · exact absurd hk (by with_unfolding_all decide)
        · obtain ⟨_, hsc⟩ := semanticMatchTerm_spec s (pyLower term) a l
          rw [hsc]
          exact hs _ _
      · rw [if_neg hsm]
        exact ⟨le_refl 0, by norm_num⟩
  · simp only [mapTerm, hl]
    exact ⟨by norm_num, le_refl 1⟩

/-! ## Lemmas about the model loaders -/

/-- A term that misses both the exact and the fuzzy tier needs the spaCy
model; if the model cannot be loaded the whole request fails with the
propagated `OSError` (no silent fall-back to the fuzzy-only result). -/
lemma mapTermsE_model_unavailable {f s : String → String → ℚ} {tF tS : ℚ}
    {t : String} {ts : List String}
    (h1 : List.lookup (pyLower t) KNOWLEDGE_BASE_B = none)
    (h2 : (fuzzyMatchTerm f (pyLower t) kbKeysB).2 < tF) :
    mapTermsE f s tF tS false (t :: ts) = .error "OSError" := by
  simp only [mapTermsE, h1]
  rw [if_neg (not_le.mpr h2)]
  simp

/-! ## Claim theorems -/

/-- C1 counterexample: the phrase "network effects" equals the canonical
term "Network Effects" after normalization, yet `_get_matches` does not
stop at an exact tier: the semantic tier still runs for that phrase (the
output depends on the semantic oracle) and the resolver can return two
matches for the phrase, not exactly one. -/
theorem c1_counterexample :
    pyNormalise "network effects" = pyLower "Network Effects" ∧
    (getMatches eqFuzzOracle semPS FUZZY_THRESHOLD_A SEMANTIC_THRESHOLD_A
        "network effects" CONCEPTS_A).length = 2 ∧
    getMatches eqFuzzOracle semZero FUZZY_THRESHOLD_A SEMANTIC_THRESHOLD_A
        "network effects" CONCEPTS_A ≠
      getMatches eqFuzzOracle semPS FUZZY_THRESHOLD_A SEMANTIC_THRESHOLD_A
        "network effects" CONCEPTS_A := by
  with_unfolding_all decide

/-- C1 amended: in `map_to_knowledge_base` a term whose lower-casing
equals a knowledge-base key is resolved by the exact tier alone: the
single entry for it has maximal confidence 1.0, and neither the fuzzy nor
the semantic matcher is invoked (the result is independent of the
scorers and of the thresholds).  `_get_matches` has no exact tier: its
matches carry no method tag, the fuzzy and semantic scores are computed
for every concept, and an exactly-equal phrase can be accompanied by
further matches for other entries. -/
theorem c1_amended (f f2 s s2 : String → String → ℚ) (tF tS tF2 tS2 : ℚ)
    (term : String) (c : KBEntry)
    (h : List.lookup (pyLower term) KNOWLEDGE_BASE_B = some c) :
    mapToKnowledgeBase f s tF tS [term] = [⟨term, c.category, c.theory, 1⟩] ∧
    mapTerm f s tF tS term = mapTerm f2 s2 tF2 tS2 term := by
  constructor
  · unfold mapToKnowledgeBase
    rw [List.map_singleton, mapTerm_exact h]
  · rw [mapTerm_exact h, mapTerm_exact h]

/-- C1 witness: the exact-tier theorem applied to the term "platform". -/
theorem c1_witness :
    mapToKnowledgeBase zeroScorer semZero 70 (65 / 100) ["platform"]
        = [⟨"platform", "Business_Concept", none, 1⟩] ∧
    mapTerm zeroScorer semZero 70 (65 / 100) "platform"
        = mapTerm eqScorer semNine 90 (1 / 2) "platform" := by
  have h := c1_amended zeroScorer eqScorer semZero semNine 70 (65 / 100) 90 (1 / 2)
    "platform" ⟨"Business_Concept", none, "Digital platform business model"⟩
    (by with_unfolding_all decide)
  exact h

/-- C2: every score comparison the program can execute uses one
consistent scale.  In `_get_matches`, the score of every emitted match —
the single value compared against both 0-100 thresholds — is the max of
the 0-100 fuzzy ratios and the raw cosine similarity rescaled by `* 100`
onto that same 0-100 scale, so the fuzzy-vs-semantic max is taken only
after both sides are on one scale.  In `map_to_knowledge_base` (with the
scorers in their library ranges, fuzzy in `[0, 100]`, cosine in
`[0, 1]`) every emitted confidence lies on the single 0-1 output scale:
the fuzzy score is divided by 100 before it coexists with the raw
similarity.  The one mixed-scale comparison in the source text sits in
`map_concepts_old`, which raises `AttributeError` before any comparison
whenever a concept iteration starts, and otherwise returns the empty
list: that comparison is unreachable. -/
theorem c2_score_scale_consistency (fz : FuzzOracle) (sem : SemOracle)
    (tF tS : ℚ) (text : String) (concepts : List (String × String))
    (f s : String → String → ℚ) (uF uS : ℚ) (term chunk verb : String)
    (chunks verbs : List String)
    (hf : ∀ a b, 0 ≤ f a b ∧ f a b ≤ 100) (hs : ∀ a b, 0 ≤ s a b ∧ s a b ≤ 1) :
    (∀ m ∈ getMatches fz sem tF tS text concepts,
        m.score = max (max4 fz (pyLower text) (pyLower m.concept))
          (sem (synonymRewrite (pyLower text)) (pyLower m.concept) * 100)) ∧
    (0 ≤ (mapTerm f s uF uS term).confidence ∧
      (mapTerm f s uF uS term).confidence ≤ 1) ∧
    mapConceptsOld (chunk :: chunks) verbs CONCEPTS_A = .error "AttributeError" ∧
    mapConceptsOld [] (verb :: verbs) CONCEPTS_A = .error "AttributeError" ∧
    mapConceptsOld [] [] CONCEPTS_A = .ok [] := by
  refine ⟨?_, mapTerm_confidence_bounds term hf hs, rfl, rfl, rfl⟩
  intro m hm
  rw [mem_getMatches] at hm
  obtain ⟨p, hp, hstep⟩ := List.mem_filterMap.mp hm
  obtain ⟨hc, hsc, _, _⟩ := getMatchStep_inv hstep
  unfold scoreOf semanticMatch at hsc
  rw [hc]
  exact hsc

/-- C2 witness: the scale facts at concrete inputs — an emitted 0-100
score equal to the rescaled similarity max, a 0-1 confidence, and the
crash of `map_concepts_old` before any comparison. -/
theorem c2_score_scale_consistency_witness :
    (⟨"Network Effects", 100,
        "The phenomenon where a product or service becomes more valuable as more people use it.",
        "case", some "network effects"⟩ : ConceptMatch).score
      = max (max4 eqFuzzOracle (pyLower "network effects") (pyLower "Network Effects"))
          (semZero (synonymRewrite (pyLower "network effects"))
            (pyLower "Network Effects") * 100) ∧
    (0 ≤ (mapTerm zeroScorer semZero 70 (65 / 100) "purple elephant dancing").confidence ∧
      (mapTerm zeroScorer semZero 70 (65 / 100) "purple elephant dancing").confidence ≤ 1) ∧
    mapConceptsOld ["strategic resources"] [] CONCEPTS_A = .error "AttributeError" ∧
    mapConceptsOld [] ["compete"] CONCEPTS_A = .error "AttributeError" ∧
    mapConceptsOld [] [] CONCEPTS_A = .ok [] := by
  have h := c2_score_scale_consistency eqFuzzOracle semZero 60 50 "network effects"
    CONCEPTS_A zeroScorer semZero 70 (65 / 100) "purple elephant dancing"
    "strategic resources" "compete" [] []
    (fun _ _ => show (0 : ℚ) ≤ 0 ∧ (0 : ℚ) ≤ 100 by with_unfolding_all decide)
    (fun _ _ => show (0 : ℚ) ≤ 0 ∧ (0 : ℚ) ≤ 1 by with_unfolding_all decide)
  exact ⟨h.1 _ (by with_unfolding_all decide), h.2.1, h.2.2.1, h.2.2.2.1, h.2.2.2.2⟩

/-- C3 counterexample: a phrase matched by no tier does not contribute
zero entries: `map_to_knowledge_base` unconditionally emits one fallback
entry (category "Business_Concept", confidence 0.0) — there is no policy
flag guarding it. -/
theorem c3_counterexample :
    mapToKnowledgeBase zeroScorer semZero FUZZY_THRESHOLD_B SEMANTIC_THRESHOLD_B
        ["purple elephant dancing"] =
      [⟨"purple elephant dancing", "Business_Concept", none, 0⟩] ∧
    (mapToKnowledgeBase zeroScorer semZero FUZZY_THRESHOLD_B SEMANTIC_THRESHOLD_B
        ["purple elephant dancing"]).length ≠ 0 := by
  with_unfolding_all decide

/-- C3 amended: a term below every tier is mapped by
`map_to_knowledge_base` to exactly one fallback entry
(Business_Concept / None / 0.0), unconditionally; `_get_matches` emits
no match for a phrase whose combined per-concept scores are below both
thresholds. -/
theorem c3_amended (f s : String → String → ℚ) (tF tS tF2 tS2 : ℚ) (term : String)
    (fz : FuzzOracle) (sem : SemOracle) (text : String)
    (concepts : List (String × String))
    (h1 : List.lookup (pyLower term) KNOWLEDGE_BASE_B = none)
    (h2 : (fuzzyMatchTerm f (pyLower term) kbKeysB).2 < tF)
    (h3 : (semanticMatchTerm s (pyLower term) kbKeysB).2 < tS)
    (h4 : ∀ p ∈ concepts, scoreOf fz sem text p.1 < tF2 ∧ scoreOf fz sem text p.1 < tS2) :
    mapToKnowledgeBase f s tF tS [term] = [⟨term, "Business_Concept", none, 0⟩] ∧
    getMatches fz sem tF2 tS2 text concepts = [] := by
  constructor
  · unfold mapToKnowledgeBase
    rw [List.map_singleton, mapTerm_fallback h1 h2 h3]
  · exact getMatches_eq_nil h4

/-- C3 witness: the amended theorem at the phrase
"purple elephant dancing" with all scores zero. -/
theorem c3_witness :
    mapToKnowledgeBase zeroScorer semZero 70 (65 / 100) ["purple elephant dancing"]
        = [⟨"purple elephant dancing", "Business_Concept", none, 0⟩] ∧
    getMatches eqFuzzOracle semZero 60 50 "purple elephant dancing" CONCEPTS_A = [] := by
  have h := c3_amended zeroScorer semZero 70 (65 / 100) 60 50 "purple elephant dancing"
    eqFuzzOracle semZero "purple elephant dancing" CONCEPTS_A
    (by with_unfolding_all decide) (by with_unfolding_all decide)
    (by with_unfolding_all decide) (by with_unfolding_all decide)
  exact h

/-- C4 counterexample: two identical hits extracted from case text and
question text are merged into one entry, because the source tag of a
`ConceptMatch` is read from the concept (always the default "case"), not
from the extracted fact. -/
theorem c4_counterexample :
    (mapConcepts eqFuzzOracle semZero
        [⟨"network effects", "case", "noun_chunk"⟩,
         ⟨"network effects", "question", "noun_chunk"⟩]).length = 1 ∧
    ("case" : String) ≠ "question" := by
  with_unfolding_all decide

/-- C4 amended: the deduplicated output of `map_concepts` never contains
two entries with the same (concept, source) pair, and the deduplication
itself keeps two entries whose keys differ (e.g. in the source tag); but
every entry of `map_concepts` carries the source tag "case" — the tag of
the extracted fact is dropped, so identical hits from different input
sources are merged. -/
theorem c4_amended (fz : FuzzOracle) (sem : SemOracle) (facts : List ExtractedFact)
    (a b : ConceptMatch) (h : (a.concept, a.source) ≠ (b.concept, b.source)) :
    (mapConcepts fz sem facts).Pairwise
        (fun x y => (x.concept, x.source) ≠ (y.concept, y.source)) ∧
    (∀ m ∈ mapConcepts fz sem facts, m.source = "case") ∧
    dedupMatches [a, b] [] = [a, b] := by
  refine ⟨?_, fun m hm => mapConcepts_source hm, dedupMatches_pair h⟩
  unfold mapConcepts
  exact dedupMatches_pairwise_key _ _

/-- C4 witness: the amended theorem at a concrete fact list and a
concrete pair differing only in the source tag. -/
theorem c4_witness :
    (mapConcepts eqFuzzOracle semZero
        [⟨"network effects", "case", "noun_chunk"⟩]).Pairwise
        (fun x y => (x.concept, x.source) ≠ (y.concept, y.source)) ∧
    dedupMatches
        [⟨"Network Effects", 100, "", "case", none⟩,
         ⟨"Network Effects", 100, "", "question", none⟩] [] =
      [⟨"Network Effects", 100, "", "case", none⟩,
       ⟨"Network Effects", 100, "", "question", none⟩] := by
  have h := c4_amended eqFuzzOracle semZero [⟨"network effects", "case", "noun_chunk"⟩]
    ⟨"Network Effects", 100, "", "case", none⟩
    ⟨"Network Effects", 100, "", "question", none⟩
    (by with_unfolding_all decide)
  exact ⟨h.1, h.2.2⟩

/-- C5: the output of `map_concepts` is sorted by non-increasing score;
the sort is stable (entries of any fixed score keep their first-seen
order); and deduplication keeps the first occurrence in sort order: the
output is a sublist of the sorted list and every sorted entry is
represented by a kept entry with the same key and a score at least as
high. -/
theorem c5_sorted_stable_dedup (fz : FuzzOracle) (sem : SemOracle)
    (facts : List ExtractedFact) :
    (mapConcepts fz sem facts).Pairwise (fun a b => b.score ≤ a.score) ∧
    (∀ c : ℚ, (pySortMatches (allMatches fz sem facts)).filter
          (fun m => decide (m.score = c))
        = (allMatches fz sem facts).filter (fun m => decide (m.score = c))) ∧
    List.Sublist (mapConcepts fz sem facts) (pySortMatches (allMatches fz sem facts)) ∧
    (∀ m ∈ pySortMatches (allMatches fz sem facts),
      ∃ m2 ∈ mapConcepts fz sem facts,
        m2.concept = m.concept ∧ m2.source = m.source ∧ m.score ≤ m2.score) := by
  unfold mapConcepts
  refine ⟨?_, fun c => pySortMatches_filter_score _ c, dedupMatches_sublist _ _, ?_⟩
  · exact List.Pairwise.sublist (dedupMatches_sublist _ _) (pySortMatches_sorted _)
  · intro m hm
    exact dedupMatches_rep _ [] (pySortMatches_sorted _) m hm (by simp)

/-- C5 witness: the aggregation invariants evaluated on a concrete
two-fact input. -/
theorem c5_witness :
    (mapConcepts eqFuzzOracle semPS
        [⟨"network effects", "case", "noun_chunk"⟩]).Pairwise
        (fun a b => b.score ≤ a.score) ∧
    (pySortMatches (allMatches eqFuzzOracle semPS
          [⟨"network effects", "case", "noun_chunk"⟩])).filter
        (fun m => decide (m.score = 100))
      = (allMatches eqFuzzOracle semPS
          [⟨"network effects", "case", "noun_chunk"⟩]).filter
        (fun m => decide (m.score = 100)) := by
  have h := c5_sorted_stable_dedup eqFuzzOracle semPS
    [⟨"network effects", "case", "noun_chunk"⟩]
  exact ⟨h.1, h.2.1 100⟩

/-- C6 counterexample: for `map_to_knowledge_base`, the result at a
raised fuzzy threshold (97 instead of the default-band 70) is not a
subset of the result at the lower threshold: the term falls from a fuzzy
match on "transaction cost" (confidence 0.96) to the fallback entry,
which the lower-threshold result does not contain. -/
theorem c6_counterexample :
    mapToKnowledgeBase scorerTC semZero 70 (65 / 100) ["transaction costs"] =
      [⟨"transaction costs", "Strategic_Theory", some "TCE", 96 / 100⟩] ∧
    mapToKnowledgeBase scorerTC semZero 97 (65 / 100) ["transaction costs"] =
      [⟨"transaction costs", "Business_Concept", none, 0⟩] ∧
    ¬ (mapToKnowledgeBase scorerTC semZero 97 (65 / 100) ["transaction costs"] ⊆
        mapToKnowledgeBase scorerTC semZero 70 (65 / 100) ["transaction costs"]) ∧
    (70 : ℚ) ≤ 97 := by
  with_unfolding_all decide

/-- C6 amended: for `_get_matches`, raising either threshold yields a
subset of the matches; for `map_to_knowledge_base` the number of
returned entries is the number of input terms at every threshold (so it
never increases), but the entries themselves need not form a subset. -/
theorem c6_amended (fz : FuzzOracle) (sem : SemOracle) (text : String)
    (concepts : List (String × String)) (f s : String → String → ℚ)
    (terms : List String) (tF tF2 tS tS2 uF uF2 uS uS2 : ℚ)
    (hF : tF ≤ tF2) (hS : tS ≤ tS2) :
    (∀ m ∈ getMatches fz sem tF2 tS2 text concepts,
        m ∈ getMatches fz sem tF tS text concepts) ∧
    (mapToKnowledgeBase f s uF2 uS2 terms).length
      = (mapToKnowledgeBase f s uF uS terms).length := by
  refine ⟨getMatches_subset_of_thresholds hF hS, ?_⟩
  unfold mapToKnowledgeBase
  rw [List.length_map, List.length_map]

/-- C6 witness: the amended monotonicity applied to the phrase
"network effects" with the fuzzy threshold raised from 60 to 80. -/
theorem c6_witness :
    (⟨"Network Effects", 100,
        "The phenomenon where a product or service becomes more valuable as more people use it.",
        "case", some "network effects"⟩ : ConceptMatch) ∈
      getMatches eqFuzzOracle semZero 60 50 "network effects" CONCEPTS_A ∧
    (mapToKnowledgeBase zeroScorer semZero 95 (9 / 10) ["a", "b"]).length
      = (mapToKnowledgeBase zeroScorer semZero 70 (65 / 100) ["a", "b"]).length := by
  have h := c6_amended eqFuzzOracle semZero "network effects" CONCEPTS_A
    zeroScorer semZero ["a", "b"] 60 80 50 70 70 95 (65 / 100) (9 / 10)
    (by with_unfolding_all decide) (by with_unfolding_all decide)
  refine ⟨h.1 _ ?_, h.2⟩
  with_unfolding_all decide

/-- C7 counterexample: `fuzzy_match_term` thresholds on
`token_sort_ratio` alone; for the phrase "transaction" against the term
"transaction costs" the four library ratios are 550/7, 100, 550/7, 100,
so the score it uses (550/7) is not the maximum of the four (100). -/
theorem c7_counterexample :
    (fuzzyMatchTerm tcFuzzOracle.tokenSortFn "transaction" ["transaction costs"]).2
        = 550 / 7 ∧
    max4 tcFuzzOracle "transaction" "transaction costs" = 100 ∧
    (550 / 7 : ℚ) ≠ 100 := by
  with_unfolding_all decide

/-- C7 amended: in `_get_matches` the score of every emitted match is
the maximum of the four fuzzy ratios of the lower-cased strings and the
semantic score; in `fuzzy_match_term` the thresholded score is the value
of its single scorer (`token_sort_ratio`) on the cleaned term and the
returned choice. -/
theorem c7_amended (fz : FuzzOracle) (sem : SemOracle) (tF tS : ℚ) (text : String)
    (concepts : List (String × String)) (scorer : String → String → ℚ)
    (term first : String) (rest : List String) :
    (∀ m ∈ getMatches fz sem tF tS text concepts,
        m.score = max (max4 fz (pyLower text) (pyLower m.concept))
          (semanticMatch sem text m.concept)) ∧
    (fuzzyMatchTerm scorer term (first :: rest)).1 ∈ first :: rest ∧
    (fuzzyMatchTerm scorer term (first :: rest)).2 =
      scorer (pyLower (pyStrip term)) (fuzzyMatchTerm scorer term (first :: rest)).1 := by
  refine ⟨?_, (fuzzyMatchTerm_spec scorer term first rest).1,
    (fuzzyMatchTerm_spec scorer term first rest).2⟩
  intro m hm
  rw [mem_getMatches] at hm
  obtain ⟨p, hp, hstep⟩ := List.mem_filterMap.mp hm
  obtain ⟨hc, hs, _, _⟩ := getMatchStep_inv hstep
  unfold scoreOf at hs
  rw [hc]
  exact hs

/-- C7 witness: the score structure evaluated on the phrase
"network effects" and the concept list reduced to "Network Effects". -/
theorem c7_witness :
    (⟨"Network Effects", 100,
        "The phenomenon where a product or service becomes more valuable as more people use it.",
        "case", some "network effects"⟩ : ConceptMatch).score
      = max (max4 eqFuzzOracle (pyLower "network effects") (pyLower "Network Effects"))
          (semanticMatch semZero "network effects" "Network Effects") ∧
    (fuzzyMatchTerm eqScorer "Network Effects" ["network effects"]).1
        ∈ ["network effects"] ∧
    (fuzzyMatchTerm eqScorer "Network Effects" ["network effects"]).2 =
      eqScorer (pyLower (pyStrip "Network Effects"))
        (fuzzyMatchTerm eqScorer "Network Effects" ["network effects"]).1 := by
  have h := c7_amended eqFuzzOracle semZero 60 50 "network effects" CONCEPTS_A
    eqScorer "Network Effects" "network effects" []
  exact ⟨h.1 _ (by with_unfolding_all decide), h.2.1, h.2.2⟩

/-- C8 counterexample: no `ModelUnavailable` error exists: when the
model is missing, the loader of src/case_context/extract.py recovers by
downloading (the request does not fail at all), and the loader of
extract.py re-raises the underlying `OSError`. -/
theorem c8_counterexample :
    loadNlpModelCC none false true = .ok () ∧
    loadNlpModelTop none false = .error "OSError" ∧
    ("OSError" : String) ≠ "ModelUnavailable" := by
  exact ⟨rfl, rfl, by decide⟩

/-- C8 amended: when the semantic tier is reached with the model
unavailable, the whole `map_to_knowledge_base` request fails with the
propagated `OSError` — there is no silent degradation to fuzzy-only —
but the error is the plain `OSError` (no `ModelUnavailable` type) and
the src/case_context loader first auto-downloads instead of failing;
no opt-in mechanism for a degraded mode exists. -/
theorem c8_amended (f s : String → String → ℚ) (tF tS : ℚ) (t : String)
    (ts : List String)
    (h1 : List.lookup (pyLower t) KNOWLEDGE_BASE_B = none)
    (h2 : (fuzzyMatchTerm f (pyLower t) kbKeysB).2 < tF) :
    mapTermsE f s tF tS false (t :: ts) = .error "OSError" ∧
    loadNlpModelTop none false = .error "OSError" ∧
    loadNlpModelTop none true = .ok () ∧
    loadNlpModelCC none false true = .ok () ∧
    loadNlpModelCC none false false = .error "OSError" :=
  ⟨mapTermsE_model_unavailable h1 h2, rfl, rfl, rfl, rfl⟩

/-- C8 witness: the failure propagation at a concrete unmatched term. -/
theorem c8_witness :
    mapTermsE zeroScorer semZero 70 (65 / 100) false ["purple elephant dancing"]
      = .error "OSError" := by
  have h := c8_amended zeroScorer semZero 70 (65 / 100) "purple elephant dancing" []
    (by with_unfolding_all decide) (by with_unfolding_all decide)
  exact h.1

/-- C9: the normalizer `_normalise` — lower-case then collapse
whitespace runs to single spaces — is idempotent. -/
theorem c9_normalise_idem (s : String) :
    pyNormalise (pyNormalise s) = pyNormalise s := by
  unfold pyNormalise
  apply congrArg String.mk
  rw [show (String.mk (collapseWs false (s.data.map Char.toLower))).data
        = collapseWs false (s.data.map Char.toLower) from rfl]
  rw [map_toLower_collapseWs, map_toLower_idem]
  exact (collapseWs_idem (s.data.map Char.toLower)).2

/-- C10: `map_to_knowledge_base` is total and length- and
order-preserving: one entry per input term, in input order (the `concept`
fields reproduce the input list), and a term matched by no tier yields
the fallback entry (Business_Concept / None / 0.0). -/
theorem c10_total_length_preserving (f s : String → String → ℚ) (tF tS : ℚ)
    (terms : List String) (term : String)
    (h1 : List.lookup (pyLower term) KNOWLEDGE_BASE_B = none)
    (h2 : (fuzzyMatchTerm f (pyLower term) kbKeysB).2 < tF)
    (h3 : (semanticMatchTerm s (pyLower term) kbKeysB).2 < tS) :
    (mapToKnowledgeBase f s tF tS terms).length = terms.length ∧
    (mapToKnowledgeBase f s tF tS terms).map (fun m => m.concept) = terms ∧
    mapTerm f s tF tS term = ⟨term, "Business_Concept", none, 0⟩ := by
  refine ⟨?_, ?_, mapTerm_fallback h1 h2 h3⟩
  · unfold mapToKnowledgeBase
    exact List.length_map _ _
  · unfold mapToKnowledgeBase
    rw [List.map_map]
    have hcomp : ((fun m : MappedConcept => m.concept) ∘ mapTerm f s tF tS) = id :=
      funext fun t => mapTerm_concept f s tF tS t
    rw [hcomp, List.map_id]

/-- C10 witness: totality on a concrete mixed input (one exact hit, one
no-tier term). -/
theorem c10_witness :
    (mapToKnowledgeBase zeroScorer semZero 70 (65 / 100)
        ["platform", "purple elephant dancing"]).length = 2 ∧
    (mapToKnowledgeBase zeroScorer semZero 70 (65 / 100)
        ["platform", "purple elephant dancing"]).map (fun m => m.concept)
      = ["platform", "purple elephant dancing"] ∧
    mapTerm zeroScorer semZero 70 (65 / 100) "purple elephant dancing"
      = ⟨"purple elephant dancing", "Business_Concept", none, 0⟩ := by
  have h := c10_total_length_preserving zeroScorer semZero 70 (65 / 100)
    ["platform", "purple elephant dancing"] "purple elephant dancing"
    (by with_unfolding_all decide) (by with_unfolding_all decide)
    (by with_unfolding_all decide)
  exact h

end CasePipeline
